import Mathlib

/-!
Verification of the Windows Terminal profile store (`WtHandler` in
`src/cli_utils/wt_profile.py`).

The settings file is modelled as the value `json.loads` produces from it:
either a decode failure (carrying the decoder's message) or a parsed JSON
value.  Python `None` and JSON `null` coincide after parsing, so `Json.null`
plays both roles.  Machine-level details (file handles, the concrete
`dumps` text) are abstracted: a write stores the document value that
`dumps` would serialise, and a subsequent read parses it back to the same
value.
-/

inductive Json where
  | null : Json
  | bool (b : Bool) : Json
  | num (n : Int) : Json
  | str (s : String) : Json
  | arr (elems : List Json) : Json
  | obj (fields : List (String × Json)) : Json
  deriving Repr

mutual

def Json.decEq : (a b : Json) → Decidable (a = b)
  | .null, .null => .isTrue rfl
  | .bool a, .bool b =>
      if h : a = b then .isTrue (by rw [h])
      else .isFalse (by intro e; injection e with e1; exact h e1)
  | .num a, .num b =>
      if h : a = b then .isTrue (by rw [h])
      else .isFalse (by intro e; injection e with e1; exact h e1)
  | .str a, .str b =>
      if h : a = b then .isTrue (by rw [h])
      else .isFalse (by intro e; injection e with e1; exact h e1)
  | .arr xs, .arr ys =>
      match Json.decEqList xs ys with
      | .isTrue h => .isTrue (by rw [h])
      | .isFalse h => .isFalse (by intro e; injection e with e1; exact h e1)
  | .obj fs, .obj gs =>
      match Json.decEqFields fs gs with
      | .isTrue h => .isTrue (by rw [h])
      | .isFalse h => .isFalse (by intro e; injection e with e1; exact h e1)
  | .null, .bool _ => .isFalse (by intro e; cases e)
  | .null, .num _ => .isFalse (by intro e; cases e)
  | .null, .str _ => .isFalse (by intro e; cases e)
  | .null, .arr _ => .isFalse (by intro e; cases e)
  | .null, .obj _ => .isFalse (by intro e; cases e)
  | .bool _, .null => .isFalse (by intro e; cases e)
  | .bool _, .num _ => .isFalse (by intro e; cases e)
  | .bool _, .str _ => .isFalse (by intro e; cases e)
  | .bool _, .arr _ => .isFalse (by intro e; cases e)
  | .bool _, .obj _ => .isFalse (by intro e; cases e)
  | .num _, .null => .isFalse (by intro e; cases e)
  | .num _, .bool _ => .isFalse (by intro e; cases e)
  | .num _, .str _ => .isFalse (by intro e; cases e)
  | .num _, .arr _ => .isFalse (by intro e; cases e)
  | .num _, .obj _ => .isFalse (by intro e; cases e)
  | .str _, .null => .isFalse (by intro e; cases e)
  | .str _, .bool _ => .isFalse (by intro e; cases e)
  | .str _, .num _ => .isFalse (by intro e; cases e)
  | .str _, .arr _ => .isFalse (by intro e; cases e)
  | .str _, .obj _ => .isFalse (by intro e; cases e)
  | .arr _, .null => .isFalse (by intro e; cases e)
  | .arr _, .bool _ => .isFalse (by intro e; cases e)
  | .arr _, .num _ => .isFalse (by intro e; cases e)
  | .arr _, .str _ => .isFalse (by intro e; cases e)
  | .arr _, .obj _ => .isFalse (by intro e; cases e)
  | .obj _, .null => .isFalse (by intro e; cases e)
  | .obj _, .bool _ => .isFalse (by intro e; cases e)
  | .obj _, .num _ => .isFalse (by intro e; cases e)
  | .obj _, .str _ => .isFalse (by intro e; cases e)
  | .obj _, .arr _ => .isFalse (by intro e; cases e)

def Json.decEqList : (xs ys : List Json) → Decidable (xs = ys)
  | [], [] => .isTrue rfl
  | [], _ :: _ => .isFalse (by intro e; cases e)
  | _ :: _, [] => .isFalse (by intro e; cases e)
  | x :: xs, y :: ys =>
      match Json.decEq x y, Json.decEqList xs ys with
      | .isTrue h1, .isTrue h2 => .isTrue (by rw [h1, h2])
      | .isFalse h1, _ => .isFalse (by intro e; injection e with e1 e2; exact h1 e1)
      | _, .isFalse h2 => .isFalse (by intro e; injection e with e1 e2; exact h2 e2)

def Json.decEqFields : (fs gs : List (String × Json)) → Decidable (fs = gs)
  | [], [] => .isTrue rfl
  | [], _ :: _ => .isFalse (by intro e; cases e)
  | _ :: _, [] => .isFalse (by intro e; cases e)
  | (k, v) :: fs, (l, w) :: gs =>
      match instDecidableEqString k l, Json.decEq v w, Json.decEqFields fs gs with
      | .isTrue h1, .isTrue h2, .isTrue h3 => .isTrue (by rw [h1, h2, h3])
      | .isFalse h1, _, _ =>
          .isFalse (by intro e; injection e with e1 e2; exact h1 (congrArg Prod.fst e1))
      | _, .isFalse h2, _ =>
          .isFalse (by intro e; injection e with e1 e2; exact h2 (congrArg Prod.snd e1))
      | _, _, .isFalse h3 => .isFalse (by intro e; injection e with e1 e2; exact h3 e2)

end

instance : DecidableEq Json := Json.decEq

deriving instance DecidableEq for Except

/-- Lookup of a key in a JSON object's binding list: Python `d[k]` and
`d.get(k)` on a dict produced by `json.loads` (keys are unique there, so
first-binding lookup is exact). -/
def jlookup : List (String × Json) → String → Option Json
  | [], _ => none
  | (k, v) :: rest, key => if k = key then some v else jlookup rest key

/-- Python `d[k] = v` on a dict: an existing key keeps its position and gets
the new value; a new key is appended at the end. -/
def jset : List (String × Json) → String → Json → List (String × Json)
  | [], key, v => [(key, v)]
  | (k, w) :: rest, key, v =>
      if k = key then (key, v) :: rest else (k, w) :: jset rest key v

/-- The error taxonomy of the spec, covering the exceptions the source can
raise.  The source raises plain `Exception` in `get_settings` — the spec's
`ConfigurationError` — and lets `json.JSONDecodeError`, `KeyError` and
`TypeError` escape while reading a malformed document — the spec's
`DataFormatError`.  `attributeError` models calling `.get` on a list entry
that is not a dict; `keyError` models subscripting the caller-supplied
profile for a key it lacks. -/
inductive WtError where
  | configurationError (msg : String)
  | dataFormatError (msg : String)
  | attributeError
  | keyError (key : String)
  | typeError
  deriving DecidableEq, Repr

/-- The settings file as seen through `json.loads`: a decode failure with the
decoder's message, or the parsed document.  `WtHandler` re-reads the file on
every property access, so this value is the whole mutable state. -/
abbrev WtFile := Except String Json

/-- Property `WtHandler.data`: `loads(self.settings.read_text())`.  A decode
failure is the spec's `DataFormatError`. -/
def data (file : WtFile) : Except WtError Json :=
  match file with
  | .error e => .error (.dataFormatError e)
  | .ok d => .ok d

/-- Property `WtHandler.profiles`: `self.data["profiles"]["list"]`.  A missing
key raises `KeyError` and a wrongly-typed node raises `TypeError` in the
source; both are the spec's `DataFormatError` (the source surfaces a
non-list `"list"` value only at first use; the embedding reports it here). -/
def profiles (file : WtFile) : Except WtError (List Json) :=
  match data file with
  | .error e => .error e
  | .ok (.obj kvs) =>
      match jlookup kvs "profiles" with
      | some (.obj pkvs) =>
          match jlookup pkvs "list" with
          | some (.arr ps) => .ok ps
          | some _ => .error (.dataFormatError "profiles.list is not a list")
          | none => .error (.dataFormatError "missing key: list")
      | some _ => .error (.dataFormatError "profiles is not an object")
      | none => .error (.dataFormatError "missing key: profiles")
  | .ok _ => .error (.dataFormatError "document is not an object")

/-- Python `profile.get(field)` on a list entry: `json.loads` maps JSON
`null` to `None` and `dict.get` returns `None` for an absent key, so a
missing field and a `null` field are the same value (`Json.null`).  A
non-dict entry has no `.get` method (`AttributeError`). -/
def pyGet (p : Json) (field : String) : Except WtError Json :=
  match p with
  | .obj kvs =>
      match jlookup kvs field with
      | some v => .ok v
      | none => .ok .null
  | _ => .error .attributeError

/-- Python `profile[key]` subscription: `KeyError` when the key is absent,
`TypeError` on a non-dict. -/
def pyIndex (p : Json) (key : String) : Except WtError Json :=
  match p with
  | .obj kvs =>
      match jlookup kvs key with
      | some v => .ok v
      | none => .error (.keyError key)
  | _ => .error .typeError

/-- The loop of `WtHandler.query`: scan the profile list in order and return
the first entry with `profile.get(field) == value`; fall off the loop with
`None` when nothing matches. -/
def queryScan (ps : List Json) (value : Json) (field : String) :
    Except WtError (Option Json) :=
  match ps with
  | [] => .ok none
  | p :: rest =>
      match pyGet p field with
      | .error e => .error e
      | .ok v => if v = value then .ok (some p) else queryScan rest value field

/-- `WtHandler.query(value, field)`.  The source annotates `value: str`, but
`add_profile` passes the parsed value `profile["commandline"]`, so the
embedding takes `value : Json`; a string argument is wrapped as `Json.str`.
The method performs no write: its result carries no new file state. -/
def query (file : WtFile) (value : Json) (field : String) :
    Except WtError (Option Json) :=
  match profiles file with
  | .error e => .error e
  | .ok ps => queryScan ps value field

/-- The index-search loop of `WtHandler.remove_profile`: `index = None`, then
`for i, profile in enumerate(...)` with `index = i` and `break` on the first
match.  `n` is the index of the first entry of `ps` in the full list. -/
def removeScan (ps : List Json) (value : Json) (field : String) (n : Nat) :
    Except WtError (Option Nat) :=
  match ps with
  | [] => .ok none
  | p :: rest =>
      match pyGet p field with
      | .error e => .error e
      | .ok v =>
          if v = value then .ok (some n) else removeScan rest value field (n + 1)

/-- The write path shared by `add_profile` and `remove_profile`:
`data = self.data.copy()`, replace `data["profiles"]["list"]`, then
`self.settings.write_text(dumps(data, indent=4))`.  `self.data` re-parses
the unchanged file, so the written document is the current one with exactly
the `profiles.list` binding replaced; every other binding keeps its place
and value (the shallow `copy` aliases the nested dict, but the parse is
fresh, so the aliasing cannot leak).  The fallback branches return the file
unchanged; they are unreachable whenever `profiles file` succeeds, which
holds at every call site. -/
def writeList (file : WtFile) (newList : List Json) : WtFile :=
  match file with
  | .ok (.obj kvs) =>
      match jlookup kvs "profiles" with
      | some (.obj pkvs) =>
          .ok (.obj (jset kvs "profiles" (.obj (jset pkvs "list" (.arr newList)))))
      | _ => file
  | _ => file

/-- `WtHandler.remove_profile(value, field)`: find the first matching index;
`if not index` — satisfied both by `None` and by the legitimate index `0` —
return `None` with no write; otherwise pop the entry, write the document
back and return the popped profile.  The result is paired with the file
state after the call.  The inner `none` fallback mirrors `list.pop` going
out of range, which cannot happen for an index produced by the scan. -/
def remove_profile (file : WtFile) (value : Json) (field : String) :
    Except WtError (Option Json × WtFile) :=
  match profiles file with
  | .error e => .error e
  | .ok ps =>
      match removeScan ps value field 0 with
      | .error e => .error e
      | .ok none => .ok (none, file)
      | .ok (some 0) => .ok (none, file)
      | .ok (some (i + 1)) =>
          match ps.get? (i + 1) with
          | some p => .ok (some p, writeList file (ps.eraseIdx (i + 1)))
          | none => .ok (none, file)

/-- The conditional removal in `WtHandler.add_profile`:
`if _profile := self.query(...): self.remove_profile(_profile["guid"], "guid")`.
The walrus test checks the truthiness of the returned dict; the only falsy
dict is the empty one, so a matched empty object skips the removal.  The
removal's return value is discarded; its errors propagate.  Returns the file
state after the conditional. -/
def addAfterRemove (file : WtFile) (qres : Option Json) : Except WtError WtFile :=
  match qres with
  | none => .ok file
  | some matched =>
      if matched = Json.obj [] then .ok file
      else
        match pyIndex matched "guid" with
        | .error e => .error e
        | .ok g =>
            match remove_profile file g "guid" with
            | .error e => .error e
            | .ok (_, file2) => .ok file2

/-- `WtHandler.add_profile(profile)`: query by the profile's own
`commandline`; on a hit, remove the matched profile by its `guid` (silently
a no-op when the match sits at index 0); then write the current list with
`profile` appended and return `True`. -/
def add_profile (file : WtFile) (profile : Json) :
    Except WtError (Bool × WtFile) :=
  match pyIndex profile "commandline" with
  | .error e => .error e
  | .ok cmd =>
      match query file cmd "commandline" with
      | .error e => .error e
      | .ok qres =>
          match addAfterRemove file qres with
          | .error e => .error e
          | .ok file2 =>
              match profiles file2 with
              | .error e => .error e
              | .ok ps2 => .ok (true, writeList file2 (ps2 ++ [profile]))

/-- The glob pattern `WtHandler.get_settings` searches for below
`%LOCALAPPDATA%/Packages`. -/
def settingsGlobPattern : String := "Microsoft.WindowsTerminal_*/LocalState/settings.json"

/-- `WtHandler.get_settings`: resolve `%LOCALAPPDATA%` — `environ.get`
returns `None` when unset, and the `if not` test also fires on an empty
string — then glob for the settings file; an empty match list raises.  Both
raises are plain `Exception`s in the source, the spec's
`ConfigurationError`.  The filesystem is abstracted as the `glob` function
(directory and pattern to match list); the first match is returned. -/
def get_settings (localappdata : Option String)
    (glob : String → String → List String) : Except WtError String :=
  match localappdata with
  | none => .error (.configurationError "Failed to resolve %LOCALAPPDATA%")
  | some base =>
      if base = "" then .error (.configurationError "Failed to resolve %LOCALAPPDATA%")
      else
        match glob (base ++ "/Packages") settingsGlobPattern with
        | [] => .error (.configurationError "Failed to resolve Windows Terminal settings.json")
        | p :: _ => .ok p

/-- Whether a list entry is a JSON object (a Python dict after parsing). -/
def isObjEntry (p : Json) : Bool :=
  match p with
  | .obj _ => true
  | _ => false

/-- The match test `profile.get(field) == value` of the scans, as a Boolean
predicate on entries that are objects (on anything else the scans raise
instead). -/
def entryMatches (field : String) (value : Json) (p : Json) : Bool :=
  match p with
  | .obj kvs => decide ((jlookup kvs field).getD Json.null = value)
  | _ => false

/-- The frame property the spec requires of every rewrite: the new file is
still a parsed object, and every top-level binding other than `profiles`,
and every binding of the `profiles` object other than `list`, is unchanged. -/
def framePreserved (file file2 : WtFile) : Prop :=
  ∀ kvs pkvs, file = .ok (.obj kvs) →
    jlookup kvs "profiles" = some (.obj pkvs) →
    ∃ kvs2 pkvs2, file2 = .ok (.obj kvs2) ∧
      jlookup kvs2 "profiles" = some (.obj pkvs2) ∧
      (∀ k, k ≠ "profiles" → jlookup kvs2 k = jlookup kvs k) ∧
      (∀ k, k ≠ "list" → jlookup pkvs2 k = jlookup pkvs k)

/-- Whether an operation's result is the spec's `DataFormatError`. -/
def isDataFormatError {α : Type} (r : Except WtError α) : Bool :=
  match r with
  | .error (.dataFormatError _) => true
  | _ => false

/-- Concrete test profile A: guid `{1}`, commandline `/bin/a`. -/
def exP1 : Json :=
  Json.obj [("name", Json.str "A"), ("guid", Json.str "{1}"),
    ("commandline", Json.str "/bin/a"), ("hidden", Json.bool false)]

/-- Concrete test profile B: fresh guid `{2}`, same commandline `/bin/a` as A. -/
def exP2 : Json :=
  Json.obj [("name", Json.str "B"), ("guid", Json.str "{2}"),
    ("commandline", Json.str "/bin/a"), ("hidden", Json.bool false)]

/-- Concrete test profile C: guid `{3}`, commandline `/bin/c`. -/
def exP3 : Json :=
  Json.obj [("name", Json.str "C"), ("guid", Json.str "{3}"),
    ("commandline", Json.str "/bin/c"), ("hidden", Json.bool false)]

/-- Concrete test profile with no `name` key. -/
def exPnoName : Json :=
  Json.obj [("guid", Json.str "{7}"), ("commandline", Json.str "/bin/z"),
    ("hidden", Json.bool false)]

/-- Settings document whose profile list is `[exP1]` (the collision target at
index 0), with unrelated keys at both levels. -/
def exDoc1 : Json :=
  Json.obj [("defaultProfile", Json.str "{1}"),
    ("profiles", Json.obj [("defaults", Json.obj []), ("list", Json.arr [exP1])]),
    ("theme", Json.str "dark")]

/-- `exDoc1` as a parsed settings file. -/
def exFile1 : WtFile := .ok exDoc1

/-- Settings document whose profile list is `[exP3, exP1]` (collision target
at index 1), with unrelated keys at both levels. -/
def exDoc2 : Json :=
  Json.obj [("defaultProfile", Json.str "{1}"),
    ("profiles", Json.obj [("defaults", Json.obj []),
      ("list", Json.arr [exP3, exP1])]),
    ("theme", Json.str "dark")]

/-- `exDoc2` as a parsed settings file. -/
def exFile2 : WtFile := .ok exDoc2

/-- Settings document whose profile list is `[exP3]` only. -/
def exDoc3 : Json :=
  Json.obj [("profiles", Json.obj [("list", Json.arr [exP3])])]

/-- `exDoc3` as a parsed settings file. -/
def exFile3 : WtFile := .ok exDoc3

/-- Settings document whose profile list starts with a record that has no
`name` key. -/
def exDocMixed : Json :=
  Json.obj [("profiles", Json.obj [("list", Json.arr [exPnoName, exP3])])]

/-- `exDocMixed` as a parsed settings file. -/
def exFileMixed : WtFile := .ok exDocMixed

/-- A settings file whose content is not valid JSON. -/
def exBadFile : WtFile := .error "Expecting value: line 1 column 1 (char 0)"

/-- A filesystem in which no path matches any glob pattern. -/
def emptyGlob : String → String → List String := fun _ _ => []

/-! ## Basic lemmas about the embedded operations -/

theorem queryScan_cons {p : Json} (h : isObjEntry p = true) (t : List Json)
    (value : Json) (field : String) :
    queryScan (p :: t) value field =
      if entryMatches field value p then .ok (some p) else queryScan t value field := by
  cases p with
  | obj kvs =>
      cases hl : jlookup kvs field with
      | none =>
          by_cases hv : Json.null = value
          · simp [queryScan, pyGet, entryMatches, hl, hv]
          · simp [queryScan, pyGet, entryMatches, hl, hv]
      | some v =>
          by_cases hv : v = value
          · simp [queryScan, pyGet, entryMatches, hl, hv]
          · simp [queryScan, pyGet, entryMatches, hl, hv]
  | null => simp [isObjEntry] at h
  | bool b => simp [isObjEntry] at h
  | num n => simp [isObjEntry] at h
  | str s => simp [isObjEntry] at h
  | arr xs => simp [isObjEntry] at h

theorem removeScan_cons {p : Json} (h : isObjEntry p = true) (t : List Json)
    (value : Json) (field : String) (n : Nat) :
    removeScan (p :: t) value field n =
      if entryMatches field value p then .ok (some n) else removeScan t value field (n + 1) := by
  cases p with
  | obj kvs =>
      cases hl : jlookup kvs field with
      | none =>
          by_cases hv : Json.null = value
          · simp [removeScan, pyGet, entryMatches, hl, hv]
          · simp [removeScan, pyGet, entryMatches, hl, hv]
      | some v =>
          by_cases hv : v = value
          · simp [removeScan, pyGet, entryMatches, hl, hv]
          · simp [removeScan, pyGet, entryMatches, hl, hv]
  | null => simp [isObjEntry] at h
  | bool b => simp [isObjEntry] at h
  | num n => simp [isObjEntry] at h
  | str s => simp [isObjEntry] at h
  | arr xs => simp [isObjEntry] at h

theorem queryScan_none_iff {ps : List Json} {value : Json} {field : String}
    (hobj : ∀ q ∈ ps, isObjEntry q = true) :
    queryScan ps value field = .ok none ↔ ∀ q ∈ ps, entryMatches field value q = false := by
  induction ps with
  | nil => simp [queryScan]
  | cons p t ih =>
      rw [queryScan_cons (hobj p (List.mem_cons_self p t)) t value field]
      have ih2 := ih (fun q hq => hobj q (List.mem_cons_of_mem p hq))
      cases hm : entryMatches field value p with
      | true =>
          simp only [if_true]
          constructor
          · intro h
            exact absurd h (by simp)
          · intro hall
            rw [hall p (List.mem_cons_self p t)] at hm
            cases hm
      | false =>
          simp only [Bool.false_eq_true, if_false, ih2]
          constructor
          · intro hall q hq
            rcases List.mem_cons.mp hq with hq1 | hq2
            · rw [hq1]; exact hm
            · exact hall q hq2
          · intro hall q hq
            exact hall q (List.mem_cons_of_mem p hq)

theorem queryScan_some_iff {ps : List Json} {value : Json} {field : String} {p : Json}
    (hobj : ∀ q ∈ ps, isObjEntry q = true) :
    queryScan ps value field = .ok (some p) ↔
      ∃ i, ps.get? i = some p ∧ entryMatches field value p = true ∧
        ∀ j q, j < i → ps.get? j = some q → entryMatches field value q = false := by
  induction ps with
  | nil => simp [queryScan]
  | cons x t ih =>
      rw [queryScan_cons (hobj x (List.mem_cons_self x t)) t value field]
      have ih2 := ih (fun q hq => hobj q (List.mem_cons_of_mem x hq))
      cases hm : entryMatches field value x with
      | true =>
          simp only [if_true]
          constructor
          · intro h
            have hx : x = p := by
              simpa using h
            subst hx
            exact ⟨0, rfl, hm, fun j q hj _ => absurd hj (Nat.not_lt_zero j)⟩
          · rintro ⟨i, hget, hpm, hfirst⟩
            cases i with
            | zero =>
                simp only [List.get?, Option.some.injEq] at hget
                rw [hget]
            | succ k =>
                have hx0 : entryMatches field value x = false :=
                  hfirst 0 x (Nat.succ_pos k) rfl
                rw [hm] at hx0
                cases hx0
      | false =>
          simp only [Bool.false_eq_true, if_false, ih2]
          constructor
          · rintro ⟨i, hget, hpm, hfirst⟩
            refine ⟨i + 1, hget, hpm, ?_⟩
            intro j q hj hq
            cases j with
            | zero =>
                simp only [List.get?, Option.some.injEq] at hq
                rw [← hq]; exact hm
            | succ k =>
                exact hfirst k q (Nat.lt_of_succ_lt_succ hj) hq
          · rintro ⟨i, hget, hpm, hfirst⟩
            cases i with
            | zero =>
                simp only [List.get?, Option.some.injEq] at hget
                rw [← hget] at hpm
                rw [hm] at hpm
                cases hpm
            | succ k =>
                refine ⟨k, hget, hpm, ?_⟩
                intro j q hj hq
                exact hfirst (j + 1) q (Nat.succ_lt_succ hj) hq

theorem queryScan_append {l1 l2 : List Json} {value : Json} {field : String}
    (hobj : ∀ q ∈ l1, isObjEntry q = true)
    (hno : ∀ q ∈ l1, entryMatches field value q = false) :
    queryScan (l1 ++ l2) value field = queryScan l2 value field := by
  induction l1 with
  | nil => rfl
  | cons x t ih =>
      rw [List.cons_append, queryScan_cons (hobj x (List.mem_cons_self x t))]
      rw [hno x (List.mem_cons_self x t)]
      simp only [Bool.false_eq_true, if_false]
      exact ih (fun q hq => hobj q (List.mem_cons_of_mem x hq))
        (fun q hq => hno q (List.mem_cons_of_mem x hq))

theorem removeScan_none {ps : List Json} {value : Json} {field : String}
    (hobj : ∀ q ∈ ps, isObjEntry q = true)
    (hno : ∀ q ∈ ps, entryMatches field value q = false) :
    ∀ n, removeScan ps value field n = .ok none := by
  induction ps with
  | nil => intro n; rfl
  | cons x t ih =>
      intro n
      rw [removeScan_cons (hobj x (List.mem_cons_self x t))]
      rw [hno x (List.mem_cons_self x t)]
      simp only [Bool.false_eq_true, if_false]
      exact ih (fun q hq => hobj q (List.mem_cons_of_mem x hq))
        (fun q hq => hno q (List.mem_cons_of_mem x hq)) (n + 1)

theorem removeScan_of_unique {ps : List Json} {value : Json} {field : String}
    {a : Json} {i : Nat}
    (hobj : ∀ q ∈ ps, isObjEntry q = true)
    (hget : ps.get? i = some a)
    (hmatch : entryMatches field value a = true)
    (huniq : ∀ j b, ps.get? j = some b → entryMatches field value b = true → j = i) :
    ∀ n, removeScan ps value field n = .ok (some (i + n)) := by
  induction ps generalizing i with
  | nil => cases hget
  | cons x t ih =>
      intro n
      rw [removeScan_cons (hobj x (List.mem_cons_self x t))]
      cases i with
      | zero =>
          simp only [List.get?, Option.some.injEq] at hget
          rw [hget, hmatch]
          simp
      | succ k =>
          have hx : entryMatches field value x = false := by
            cases hx : entryMatches field value x with
            | false => rfl
            | true => cases huniq 0 x rfl hx
          rw [hx]
          simp only [Bool.false_eq_true, if_false]
          have hrec := ih (fun q hq => hobj q (List.mem_cons_of_mem x hq)) hget
            (fun j b hj hb => Nat.succ_injective (huniq (j + 1) b hj hb)) (n + 1)
          rw [hrec]
          have : k + (n + 1) = k + 1 + n := by omega
          rw [this]

theorem removeScan_some_spec {ps : List Json} {value : Json} {field : String} {m : Nat} :
    ∀ {n : Nat}, removeScan ps value field n = .ok (some m) →
      ∃ j p, m = j + n ∧ ps.get? j = some p ∧ entryMatches field value p = true := by
  induction ps with
  | nil => intro n h; cases h
  | cons x t ih =>
      intro n h
      rw [removeScan] at h
      cases hg : pyGet x field with
      | error e => rw [hg] at h; cases h
      | ok v =>
          rw [hg] at h
          dsimp only at h
          by_cases hv : v = value
          · rw [if_pos hv] at h
            have hm : m = n := by simpa using h.symm
            refine ⟨0, x, hm.symm ▸ (Nat.zero_add n).symm ▸ rfl, rfl, ?_⟩
            cases x with
            | obj kvs =>
                simp only [pyGet] at hg
                simp only [entryMatches]
                cases hl : jlookup kvs field with
                | none =>
                    rw [hl] at hg
                    have hnv : Json.null = v := by simpa using hg
                    simp [hnv.trans hv]
                | some w =>
                    rw [hl] at hg
                    have hw : w = v := by simpa using hg
                    simp [hw.trans hv]
            | null => cases hg
            | bool b => cases hg
            | num nn => cases hg
            | str s => cases hg
            | arr xs => cases hg
          · rw [if_neg hv] at h
            obtain ⟨j, p, hm, hget, hpm⟩ := ih h
            exact ⟨j + 1, p, by omega, hget, hpm⟩

theorem removeScan_isOk {ps : List Json} {value : Json} {field : String}
    (hobj : ∀ q ∈ ps, isObjEntry q = true) :
    ∀ n, ∃ r, removeScan ps value field n = .ok r := by
  induction ps with
  | nil => intro n; exact ⟨none, rfl⟩
  | cons x t ih =>
      intro n
      rw [removeScan_cons (hobj x (List.mem_cons_self x t))]
      cases hm : entryMatches field value x with
      | true => exact ⟨some n, by simp⟩
      | false =>
          obtain ⟨r, hr⟩ := ih (fun q hq => hobj q (List.mem_cons_of_mem x hq)) (n + 1)
          exact ⟨r, by simp [hr]⟩

theorem filter_singleton_spec {α : Type} {l : List α} {f : α → Bool} {a : α}
    (h : l.filter f = [a]) :
    ∃ i, l.get? i = some a ∧ f a = true ∧
      (∀ j b, l.get? j = some b → f b = true → j = i) ∧
      (l.eraseIdx i).filter f = [] := by
  induction l with
  | nil => cases h
  | cons x t ih =>
      rw [List.filter_cons] at h
      by_cases hx : f x = true
      · rw [if_pos hx] at h
        have hxa : x = a := (List.cons.injEq _ _ _ _ ▸ h).1
        have ht : t.filter f = [] := (List.cons.injEq _ _ _ _ ▸ h).2
        refine ⟨0, by rw [hxa]; rfl, hxa ▸ hx, ?_, by simpa [List.eraseIdx] using ht⟩
        intro j b hj hb
        cases j with
        | zero => rfl
        | succ k =>
            have hbt : b ∈ t := List.get?_mem hj
            have := List.filter_eq_nil_iff.mp ht b hbt
            exact absurd hb this
      · rw [if_neg hx] at h
        obtain ⟨i, hget, hfa, huniq, herase⟩ := ih h
        refine ⟨i + 1, hget, hfa, ?_, ?_⟩
        · intro j b hj hb
          cases j with
          | zero =>
              simp only [List.get?, Option.some.injEq] at hj
              rw [← hj] at hb
              exact absurd hb hx
          | succ k =>
              have := huniq k b hj hb
              omega
        · simp only [List.eraseIdx, List.filter_cons]
          rw [if_neg hx]
          exact herase

theorem jlookup_jset_self (kvs : List (String × Json)) (k : String) (v : Json) :
    jlookup (jset kvs k v) k = some v := by
  induction kvs with
  | nil => simp [jset, jlookup]
  | cons x rest ih =>
      obtain ⟨xk, xv⟩ := x
      by_cases hk : xk = k
      · simp [jset, hk, jlookup]
      · simp only [jset, if_neg hk, jlookup, if_neg hk]
        exact ih

theorem jlookup_jset_ne (kvs : List (String × Json)) (k k2 : String) (v : Json)
    (h : k2 ≠ k) : jlookup (jset kvs k v) k2 = jlookup kvs k2 := by
  induction kvs with
  | nil => simp [jset, jlookup, Ne.symm h]
  | cons x rest ih =>
      obtain ⟨xk, xv⟩ := x
      by_cases hk : xk = k
      · simp [jset, if_pos hk, jlookup, hk, Ne.symm h]
      · simp only [jset, if_neg hk, jlookup]
        by_cases hk2 : xk = k2
        · rw [if_pos hk2, if_pos hk2]
        · rw [if_neg hk2, if_neg hk2]
          exact ih

theorem profiles_ok_shape {file : WtFile} {ps : List Json}
    (h : profiles file = .ok ps) :
    ∃ kvs pkvs, file = .ok (.obj kvs) ∧
      jlookup kvs "profiles" = some (.obj pkvs) ∧
      jlookup pkvs "list" = some (.arr ps) := by
  cases file with
  | error e => simp [profiles, data] at h
  | ok d =>
      cases d with
      | obj kvs =>
          cases hp : jlookup kvs "profiles" with
          | none => simp [profiles, data, hp] at h
          | some pv =>
              cases pv with
              | obj pkvs =>
                  cases hl : jlookup pkvs "list" with
                  | none => simp [profiles, data, hp, hl] at h
                  | some lv =>
                      cases lv with
                      | arr xs =>
                          have hx : xs = ps := by
                            simpa [profiles, data, hp, hl] using h
                          exact ⟨kvs, pkvs, rfl, hp, by rw [hl, hx]⟩
                      | null => simp [profiles, data, hp, hl] at h
                      | bool b => simp [profiles, data, hp, hl] at h
                      | num n => simp [profiles, data, hp, hl] at h
                      | str s => simp [profiles, data, hp, hl] at h
                      | obj o => simp [profiles, data, hp, hl] at h
              | null => simp [profiles, data, hp] at h
              | bool b => simp [profiles, data, hp] at h
              | num n => simp [profiles, data, hp] at h
              | str s => simp [profiles, data, hp] at h
              | arr xs => simp [profiles, data, hp] at h
      | null => simp [profiles, data] at h
      | bool b => simp [profiles, data] at h
      | num n => simp [profiles, data] at h
      | str s => simp [profiles, data] at h
      | arr xs => simp [profiles, data] at h

theorem writeList_eq {file : WtFile} {kvs pkvs : List (String × Json)}
    (hfile : file = .ok (.obj kvs))
    (hpro : jlookup kvs "profiles" = some (.obj pkvs)) (l : List Json) :
    writeList file l =
      .ok (.obj (jset kvs "profiles" (.obj (jset pkvs "list" (.arr l))))) := by
  rw [hfile]
  simp only [writeList, hpro]

theorem profiles_writeList {file : WtFile} {ps : List Json}
    (h : profiles file = .ok ps) (l : List Json) :
    profiles (writeList file l) = .ok l := by
  obtain ⟨kvs, pkvs, hfile, hpro, _⟩ := profiles_ok_shape h
  rw [writeList_eq hfile hpro l]
  simp only [profiles, data, jlookup_jset_self, jlookup_jset_self]

theorem framePreserved_refl (file : WtFile) : framePreserved file file := by
  intro kvs pkvs hfile hpro
  exact ⟨kvs, pkvs, hfile, hpro, fun k _ => rfl, fun k _ => rfl⟩

theorem framePreserved_trans {f1 f2 f3 : WtFile}
    (h12 : framePreserved f1 f2) (h23 : framePreserved f2 f3) :
    framePreserved f1 f3 := by
  intro kvs pkvs hfile hpro
  obtain ⟨kvs2, pkvs2, hfile2, hpro2, htop2, hnested2⟩ := h12 kvs pkvs hfile hpro
  obtain ⟨kvs3, pkvs3, hfile3, hpro3, htop3, hnested3⟩ := h23 kvs2 pkvs2 hfile2 hpro2
  exact ⟨kvs3, pkvs3, hfile3, hpro3,
    fun k hk => (htop3 k hk).trans (htop2 k hk),
    fun k hk => (hnested3 k hk).trans (hnested2 k hk)⟩

theorem writeList_framePreserved (file : WtFile) (l : List Json) :
    framePreserved file (writeList file l) := by
  intro kvs pkvs hfile hpro
  rw [writeList_eq hfile hpro l]
  refine ⟨jset kvs "profiles" (.obj (jset pkvs "list" (.arr l))),
    jset pkvs "list" (.arr l), rfl, jlookup_jset_self kvs "profiles" _, ?_, ?_⟩
  · intro k hk
    exact jlookup_jset_ne kvs "profiles" k _ hk
  · intro k hk
    exact jlookup_jset_ne pkvs "list" k _ hk

theorem remove_profile_ok_elim {file : WtFile} {ps : List Json} {value : Json}
    {field : String} {res : Option Json} {f2 : WtFile}
    (hps : profiles file = .ok ps)
    (h : remove_profile file value field = .ok (res, f2)) :
    (res = none ∧ f2 = file) ∨
      ∃ i p, res = some p ∧ ps.get? i = some p ∧ 0 < i ∧
        entryMatches field value p = true ∧
        f2 = writeList file (ps.eraseIdx i) := by
  cases hscan : removeScan ps value field 0 with
  | error e => simp [remove_profile, hps, hscan] at h
  | ok idx =>
      cases idx with
      | none =>
          have := by simpa [remove_profile, hps, hscan] using h
          exact Or.inl ⟨this.1.symm, this.2.symm⟩
      | some i =>
          cases i with
          | zero =>
              have := by simpa [remove_profile, hps, hscan] using h
              exact Or.inl ⟨this.1.symm, this.2.symm⟩
          | succ k =>
              cases hget : ps[k + 1]? with
              | none =>
                  have := by
                    simpa [remove_profile, hps, hscan, List.get?_eq_getElem?, hget] using h
                  exact Or.inl ⟨this.1.symm, this.2.symm⟩
              | some p =>
                  have hrp := by
                    simpa [remove_profile, hps, hscan, List.get?_eq_getElem?, hget] using h
                  have hpm : entryMatches field value p = true := by
                    obtain ⟨j, q, hm, hgetq, hq⟩ := removeScan_some_spec hscan
                    have hj : j = k + 1 := by omega
                    rw [hj, List.get?_eq_getElem?, hget] at hgetq
                    have hqp : p = q := by simpa using hgetq
                    rw [hqp]
                    exact hq
                  exact Or.inr ⟨k + 1, p, hrp.1.symm,
                    by rw [List.get?_eq_getElem?, hget], Nat.succ_pos k, hpm, hrp.2.symm⟩

theorem addAfterRemove_ok_elim {file : WtFile} {ps : List Json} {qres : Option Json}
    {fmid : WtFile} (hps : profiles file = .ok ps)
    (h : addAfterRemove file qres = .ok fmid) :
    ∃ mid, profiles fmid = .ok mid ∧ mid.Sublist ps ∧ framePreserved file fmid := by
  cases qres with
  | none =>
      have hf : fmid = file := by simpa [addAfterRemove] using h.symm
      exact ⟨ps, hf ▸ hps, List.Sublist.refl ps, hf ▸ framePreserved_refl file⟩
  | some matched =>
      by_cases hempty : matched = Json.obj []
      · have hf : fmid = file := by simpa [addAfterRemove, hempty] using h.symm
        exact ⟨ps, hf ▸ hps, List.Sublist.refl ps, hf ▸ framePreserved_refl file⟩
      · cases hpi : pyIndex matched "guid" with
        | error e => simp [addAfterRemove, hempty, hpi] at h
        | ok g =>
            cases hrem : remove_profile file g "guid" with
            | error e => simp [addAfterRemove, hempty, hpi, hrem] at h
            | ok resf =>
                obtain ⟨res, f2⟩ := resf
                have hf : fmid = f2 := by
                  simpa [addAfterRemove, hempty, hpi, hrem] using h.symm
                rcases remove_profile_ok_elim hps hrem with ⟨_, hf2⟩ | ⟨i, p, _, _, _, _, hf2⟩
                · rw [hf, hf2]
                  exact ⟨ps, hps, List.Sublist.refl ps, framePreserved_refl file⟩
                · rw [hf, hf2]
                  exact ⟨ps.eraseIdx i, profiles_writeList hps _,
                    List.eraseIdx_sublist ps i, writeList_framePreserved file _⟩

theorem add_profile_ok_elim {file : WtFile} {ps : List Json} {P : Json} {b : Bool}
    {file2 : WtFile} (hps : profiles file = .ok ps)
    (h : add_profile file P = .ok (b, file2)) :
    b = true ∧ ∃ fmid mid, profiles fmid = .ok mid ∧
      file2 = writeList fmid (mid ++ [P]) ∧ mid.Sublist ps ∧
      framePreserved file fmid := by
  cases hcmd : pyIndex P "commandline" with
  | error e => simp [add_profile, hcmd] at h
  | ok cmd =>
      cases hq : query file cmd "commandline" with
      | error e => simp [add_profile, hcmd, hq] at h
      | ok qres =>
          cases har : addAfterRemove file qres with
          | error e => simp [add_profile, hcmd, hq, har] at h
          | ok fmid =>
              cases hp2 : profiles fmid with
              | error e => simp [add_profile, hcmd, hq, har, hp2] at h
              | ok mid =>
                  have hbf := by simpa [add_profile, hcmd, hq, har, hp2] using h
                  obtain ⟨mid2, hpre, hsub, hframe⟩ := addAfterRemove_ok_elim hps har
                  have hmm : mid = mid2 := by
                    rw [hp2] at hpre
                    simpa using hpre
                  refine ⟨hbf.1, fmid, mid, hp2, hbf.2.symm, ?_, hframe⟩
                  rw [hmm]
                  exact hsub

theorem queryScan_isOk {ps : List Json} {value : Json} {field : String}
    (hobj : ∀ q ∈ ps, isObjEntry q = true) :
    ∃ r, queryScan ps value field = .ok r := by
  induction ps with
  | nil => exact ⟨none, rfl⟩
  | cons x t ih =>
      rw [queryScan_cons (hobj x (List.mem_cons_self x t))]
      cases hm : entryMatches field value x with
      | true => exact ⟨some x, by simp⟩
      | false =>
          obtain ⟨r, hr⟩ := ih (fun q hq => hobj q (List.mem_cons_of_mem x hq))
          exact ⟨r, by simp [hr]⟩

theorem entryMatches_str_elim {field g : String} {p : Json}
    (h : entryMatches field (Json.str g) p = true) :
    ∃ kvs, p = Json.obj kvs ∧ jlookup kvs field = some (Json.str g) := by
  cases p with
  | obj kvs =>
      refine ⟨kvs, rfl, ?_⟩
      simp only [entryMatches, decide_eq_true_eq] at h
      cases hl : jlookup kvs field with
      | none => rw [hl] at h; cases h
      | some v => rw [hl] at h; rw [← h]; rfl
  | null => cases h
  | bool b => cases h
  | num n => cases h
  | str s => cases h
  | arr xs => cases h

theorem entryMatches_str_ne_empty {field g : String} {p : Json}
    (h : entryMatches field (Json.str g) p = true) : p ≠ Json.obj [] := by
  obtain ⟨kvs, hp, hl⟩ := entryMatches_str_elim h
  intro he
  rw [hp] at he
  injection he with he2
  rw [he2] at hl
  cases hl

theorem entryMatches_none_lookup {field : String} {v : String} {kvs : List (String × Json)}
    (hl : jlookup kvs field = none) :
    entryMatches field (Json.str v) (Json.obj kvs) = false := by
  simp [entryMatches, hl]

theorem pyIndex_ok_elim {p : Json} {key : String} {v : Json}
    (h : pyIndex p key = .ok v) :
    ∃ kvs, p = Json.obj kvs ∧ jlookup kvs key = some v := by
  cases p with
  | obj kvs =>
      refine ⟨kvs, rfl, ?_⟩
      cases hl : jlookup kvs key with
      | none => simp [pyIndex, hl] at h
      | some w =>
          have hwv : w = v := by simpa [pyIndex, hl] using h
          rw [hwv]
  | null => cases h
  | bool b => cases h
  | num n => cases h
  | str s => cases h
  | arr xs => cases h

theorem entryMatches_of_lookup {kvs : List (String × Json)} {field : String}
    {value : Json} (h : jlookup kvs field = some value) :
    entryMatches field value (Json.obj kvs) = true := by
  simp [entryMatches, h]

/-! ## Claim theorems -/

/-- Claim C2: when the first profile whose given field equals the given value
sits at list position 0, `remove_profile` hits the falsy-zero defect:
`if not index` treats the found index 0 as "not found", so it returns the
sentinel `None` and performs no write — the returned file state is the input
file, so the persisted profile list is unchanged. -/
theorem wt_remove_skips_match_at_index_zero {file : WtFile} {ps t : List Json}
    {p value : Json} {field : String}
    (hps : profiles file = .ok ps) (hcons : ps = p :: t)
    (hobj : isObjEntry p = true)
    (hmatch : entryMatches field value p = true) :
    remove_profile file value field = .ok (none, file) := by
  subst hcons
  have hscan : removeScan (p :: t) value field 0 = .ok (some 0) := by
    rw [removeScan_cons hobj]
    simp [hmatch]
  simp [remove_profile, hps, hscan]

theorem wt_remove_skips_match_at_index_zero_witness :
    remove_profile exFile1 (Json.str "{1}") "guid" = .ok (none, exFile1) :=
  @wt_remove_skips_match_at_index_zero exFile1 [exP1] [] exP1 (Json.str "{1}")
    "guid" rfl rfl (by decide) (by decide)

/-- Claim C4: removing with a (value, field) pair that matches no profile in
the list returns the not-found sentinel and performs no write: the returned
file state is the input file, so the profile list's length and contents are
identical before and after the call. -/
theorem wt_remove_not_found_no_write {file : WtFile} {ps : List Json}
    {value : Json} {field : String}
    (hps : profiles file = .ok ps)
    (hobj : ∀ q ∈ ps, isObjEntry q = true)
    (hno : ∀ q ∈ ps, entryMatches field value q = false) :
    remove_profile file value field = .ok (none, file) := by
  have hscan := removeScan_none hobj hno 0
  simp [remove_profile, hps, hscan]

theorem wt_remove_not_found_no_write_witness :
    remove_profile exFile2 (Json.str "{9}") "guid" = .ok (none, exFile2) :=
  @wt_remove_not_found_no_write exFile2 [exP3, exP1] (Json.str "{9}") "guid"
    rfl (by decide) (by decide)

/-- Claim C7: constructing the store fails with the spec's
`ConfigurationError` both when the `%LOCALAPPDATA%` environment variable is
unset (or empty, which the falsy test also catches) and when zero paths
match the settings-file glob pattern under that base directory. -/
theorem wt_get_settings_config_error (env : Option String)
    (glob : String → String → List String) :
    (env = none →
      get_settings env glob =
        .error (.configurationError "Failed to resolve %LOCALAPPDATA%")) ∧
    (∀ base, env = some base →
      glob (base ++ "/Packages") settingsGlobPattern = [] →
      (get_settings env glob =
          .error (.configurationError "Failed to resolve %LOCALAPPDATA%") ∨
        get_settings env glob =
          .error
            (.configurationError "Failed to resolve Windows Terminal settings.json"))) := by
  constructor
  · intro h
    rw [h]
    rfl
  · intro base hb hg
    rw [hb]
    by_cases hbase : base = ""
    · exact Or.inl (by simp [get_settings, hbase])
    · exact Or.inr (by simp [get_settings, hbase, hg])

theorem wt_get_settings_config_error_witness :
    get_settings none emptyGlob =
      .error (.configurationError "Failed to resolve %LOCALAPPDATA%") ∧
    (get_settings (some "C:/Users/u/AppData/Local") emptyGlob =
        .error (.configurationError "Failed to resolve %LOCALAPPDATA%") ∨
      get_settings (some "C:/Users/u/AppData/Local") emptyGlob =
        .error
          (.configurationError "Failed to resolve Windows Terminal settings.json")) :=
  ⟨(wt_get_settings_config_error none emptyGlob).1 rfl,
    (wt_get_settings_config_error (some "C:/Users/u/AppData/Local") emptyGlob).2
      "C:/Users/u/AppData/Local" rfl rfl⟩

/-- Claim C8: when the settings file's content is invalid JSON, or its
document is missing the expected `profiles` / `list` keys, every operation
that reads the document — the `profiles` accessor, `query`,
`remove_profile`, and `add_profile` (once its input profile has a
`commandline`) — fails with the spec's `DataFormatError`. -/
theorem wt_bad_document_data_format_error {file : WtFile}
    (hbad : (∃ e, file = .error e) ∨
      ∃ kvs, file = .ok (.obj kvs) ∧
        (jlookup kvs "profiles" = none ∨
          ∃ pkvs, jlookup kvs "profiles" = some (.obj pkvs) ∧
            jlookup pkvs "list" = none)) :
    isDataFormatError (profiles file) = true ∧
    (∀ value field, isDataFormatError (query file value field) = true) ∧
    (∀ value field, isDataFormatError (remove_profile file value field) = true) ∧
    (∀ P cmd, pyIndex P "commandline" = .ok cmd →
      isDataFormatError (add_profile file P) = true) := by
  have hpro : ∃ m, profiles file = .error (.dataFormatError m) := by
    rcases hbad with ⟨e, he⟩ | ⟨kvs, hk, hrest⟩
    · exact ⟨e, by rw [he]; rfl⟩
    · rcases hrest with hnone | ⟨pkvs, hp, hl⟩
      · exact ⟨"missing key: profiles", by rw [hk]; simp [profiles, data, hnone]⟩
      · exact ⟨"missing key: list", by rw [hk]; simp [profiles, data, hp, hl]⟩
  obtain ⟨m, hm⟩ := hpro
  refine ⟨by simp [hm, isDataFormatError], ?_, ?_, ?_⟩
  · intro value field
    simp [query, hm, isDataFormatError]
  · intro value field
    simp [remove_profile, hm, isDataFormatError]
  · intro P cmd hc
    simp [add_profile, hc, query, hm, isDataFormatError]

theorem wt_bad_document_data_format_error_witness :
    isDataFormatError (profiles exBadFile) = true ∧
    isDataFormatError (query exBadFile (Json.str "{1}") "guid") = true ∧
    isDataFormatError (remove_profile exBadFile (Json.str "{1}") "guid") = true ∧
    isDataFormatError (add_profile exBadFile exP2) = true := by
  have h := wt_bad_document_data_format_error
    (Or.inl ⟨"Expecting value: line 1 column 1 (char 0)", rfl⟩)
  exact ⟨h.1, h.2.1 (Json.str "{1}") "guid", h.2.2.1 (Json.str "{1}") "guid",
    h.2.2.2 exP2 (Json.str "/bin/a") rfl⟩

/-- Claim C6: `query` scans the profile list in order and returns the first
profile whose field compares equal to the value, or the not-found sentinel
`None` when no profile matches.  The operation performs no write — its
embedding is a pure function of the file state, mirroring that the source
method never calls `write_text` — so it never modifies the document. -/
theorem wt_query_first_match {file : WtFile} {ps : List Json} {value : Json}
    {field : String} {p : Json}
    (hps : profiles file = .ok ps)
    (hobj : ∀ q ∈ ps, isObjEntry q = true) :
    (query file value field = .ok (some p) ↔
      ∃ i, ps.get? i = some p ∧ entryMatches field value p = true ∧
        ∀ j q, j < i → ps.get? j = some q → entryMatches field value q = false) ∧
    (query file value field = .ok none ↔
      ∀ q ∈ ps, entryMatches field value q = false) := by
  have hq : query file value field = queryScan ps value field := by
    simp [query, hps]
  rw [hq]
  exact ⟨queryScan_some_iff hobj, queryScan_none_iff hobj⟩

theorem wt_query_first_match_witness :
    query exFile2 (Json.str "/bin/a") "commandline" = .ok (some exP1) := by
  have h := @wt_query_first_match exFile2 [exP3, exP1] (Json.str "/bin/a")
    "commandline" exP1 rfl (by decide)
  refine h.1.mpr ⟨1, rfl, by decide, ?_⟩
  intro j q hj hq
  cases j with
  | zero =>
      have hq3 : exP3 = q := by simpa using hq
      rw [← hq3]
      decide
  | succ k => omega

/-- Claim C10: a profile record that lacks the queried field is treated as a
non-match — `dict.get` returns `None`, which never equals a string value —
and the scan continues, so `query` and `remove_profile` are total over
documents whose list entries are all records (objects), and neither ever
returns or removes a record lacking the field when the value is a string. -/
theorem wt_missing_field_non_match {file : WtFile} {ps : List Json}
    {field : String} (v : String)
    (hps : profiles file = .ok ps)
    (hobj : ∀ q ∈ ps, isObjEntry q = true) :
    (∃ r, query file (Json.str v) field = .ok r) ∧
    (∃ r, remove_profile file (Json.str v) field = .ok r) ∧
    (∀ kvs, Json.obj kvs ∈ ps → jlookup kvs field = none →
      query file (Json.str v) field ≠ .ok (some (Json.obj kvs)) ∧
      ∀ f2, remove_profile file (Json.str v) field ≠ .ok (some (Json.obj kvs), f2)) := by
  have hq : query file (Json.str v) field = queryScan ps (Json.str v) field := by
    simp [query, hps]
  refine ⟨?_, ?_, ?_⟩
  · obtain ⟨r, hr⟩ := @queryScan_isOk ps (Json.str v) field hobj
    exact ⟨r, by rw [hq]; exact hr⟩
  · obtain ⟨r, hr⟩ := @removeScan_isOk ps (Json.str v) field hobj 0
    cases r with
    | none => exact ⟨(none, file), by simp [remove_profile, hps, hr]⟩
    | some m =>
        cases m with
        | zero => exact ⟨(none, file), by simp [remove_profile, hps, hr]⟩
        | succ k =>
            obtain ⟨j, p, hm, hget, hpm⟩ := removeScan_some_spec hr
            have hj : j = k + 1 := by omega
            rw [hj, List.get?_eq_getElem?] at hget
            exact ⟨(some p, writeList file (ps.eraseIdx (k + 1))),
              by simp [remove_profile, hps, hr, hget]⟩
  · intro kvs hmem hlnone
    have hfail : entryMatches field (Json.str v) (Json.obj kvs) = false :=
      entryMatches_none_lookup hlnone
    constructor
    · intro hcontra
      rw [hq] at hcontra
      obtain ⟨i, hget, hpm, hfirst⟩ := (queryScan_some_iff hobj).mp hcontra
      rw [hfail] at hpm
      cases hpm
    · intro f2 hcontra
      rcases remove_profile_ok_elim hps hcontra with ⟨hnone, hfe⟩ |
        ⟨i, p2, hsome, hget, hpos, hpm, hfe⟩
      · cases hnone
      · have hp2 : Json.obj kvs = p2 := by
          injection hsome with hs
        rw [← hp2, hfail] at hpm
        cases hpm

theorem wt_missing_field_non_match_witness :
    (∃ r, query exFileMixed (Json.str "C") "name" = .ok r) ∧
    (∃ r, remove_profile exFileMixed (Json.str "C") "name" = .ok r) ∧
    (query exFileMixed (Json.str "C") "name" ≠
        .ok (some (Json.obj [("guid", Json.str "{7}"),
          ("commandline", Json.str "/bin/z"), ("hidden", Json.bool false)])) ∧
      ∀ f2, remove_profile exFileMixed (Json.str "C") "name" ≠
        .ok (some (Json.obj [("guid", Json.str "{7}"),
          ("commandline", Json.str "/bin/z"), ("hidden", Json.bool false)]), f2)) := by
  have h := @wt_missing_field_non_match exFileMixed [exPnoName, exP3] "name" "C"
    rfl (by decide)
  exact ⟨h.1, h.2.1,
    h.2.2 [("guid", Json.str "{7}"), ("commandline", Json.str "/bin/z"),
      ("hidden", Json.bool false)] (by decide) (by decide)⟩

/-- Claim C3: for every well-formed profile P (an object with a string
`commandline`) added to a document none of whose profiles matches that
commandline, `add_profile` appends P and reports success, and a subsequent
`query` for P's commandline by the `commandline` field returns P. -/
theorem wt_add_then_query {file : WtFile} {ps : List Json} {P : Json}
    {Pkvs : List (String × Json)} {c : String}
    (hps : profiles file = .ok ps)
    (hobj : ∀ q ∈ ps, isObjEntry q = true)
    (hP : P = Json.obj Pkvs)
    (hPc : jlookup Pkvs "commandline" = some (Json.str c))
    (hno : ∀ q ∈ ps, entryMatches "commandline" (Json.str c) q = false) :
    add_profile file P = .ok (true, writeList file (ps ++ [P])) ∧
    query (writeList file (ps ++ [P])) (Json.str c) "commandline" =
      .ok (some P) := by
  have hPm : entryMatches "commandline" (Json.str c) P = true := by
    rw [hP]
    exact entryMatches_of_lookup hPc
  have hPobj : isObjEntry P = true := by rw [hP]; rfl
  have hpi : pyIndex P "commandline" = .ok (Json.str c) := by
    rw [hP]
    simp [pyIndex, hPc]
  have hqnone : query file (Json.str c) "commandline" = .ok none := by
    have hs : queryScan ps (Json.str c) "commandline" = .ok none :=
      (queryScan_none_iff hobj).mpr hno
    simp [query, hps, hs]
  constructor
  · simp [add_profile, hpi, hqnone, addAfterRemove, hps]
  · have hps2 : profiles (writeList file (ps ++ [P])) = .ok (ps ++ [P]) :=
      profiles_writeList hps _
    have hscan : queryScan (ps ++ [P]) (Json.str c) "commandline" = .ok (some P) := by
      rw [queryScan_append hobj hno, queryScan_cons hPobj]
      simp [hPm]
    simp [query, hps2, hscan]

theorem wt_add_then_query_witness :
    add_profile exFile3 exP2 = .ok (true, writeList exFile3 ([exP3] ++ [exP2])) ∧
    query (writeList exFile3 ([exP3] ++ [exP2])) (Json.str "/bin/a")
      "commandline" = .ok (some exP2) :=
  @wt_add_then_query exFile3 [exP3] exP2
    [("name", Json.str "B"), ("guid", Json.str "{2}"),
      ("commandline", Json.str "/bin/a"), ("hidden", Json.bool false)]
    "/bin/a" rfl (by decide) rfl rfl (by decide)

/-- Claim C9: profile list order is preserved up to the documented
reorderings.  `add_profile` writes some subsequence of the prior entries (all
of them when there is no commandline collision; all but the replaced one
when the colliding entry is actually removed) in their original relative
order, with the new profile appended at the end; a successful
`remove_profile` deletes exactly one entry, keeping the remaining entries in
their original relative order (a subsequence); `query` performs no write, so
it cannot change the order. -/
theorem wt_order_preservation :
    (∀ file ps P b file2, profiles file = .ok ps →
      add_profile file P = .ok (b, file2) →
      ∃ mid, profiles file2 = .ok (mid ++ [P]) ∧ mid.Sublist ps) ∧
    (∀ file ps value field p file2, profiles file = .ok ps →
      remove_profile file value field = .ok (some p, file2) →
      ∃ i, 0 < i ∧ ps.get? i = some p ∧
        profiles file2 = .ok (ps.eraseIdx i) ∧ (ps.eraseIdx i).Sublist ps) := by
  constructor
  · intro file ps P b file2 hps h
    obtain ⟨-, fmid, mid, hmid, hf2, hsub, -⟩ := add_profile_ok_elim hps h
    exact ⟨mid, by rw [hf2]; exact profiles_writeList hmid _, hsub⟩
  · intro file ps value field p file2 hps h
    rcases remove_profile_ok_elim hps h with ⟨hnone, -⟩ |
      ⟨i, p2, hsome, hget, hpos, -, hf2⟩
    · cases hnone
    · have hp2 : p = p2 := by injection hsome with hs
      refine ⟨i, hpos, ?_, ?_, List.eraseIdx_sublist ps i⟩
      · rw [hp2]
        exact hget
      · rw [hf2]
        exact profiles_writeList hps _

theorem wt_order_preservation_witness :
    (∃ mid, profiles (writeList exFile3 ([exP3] ++ [exP2])) = .ok (mid ++ [exP2]) ∧
      mid.Sublist [exP3]) ∧
    (∃ i, 0 < i ∧ [exP3, exP1].get? i = some exP1 ∧
      profiles (writeList exFile2 ([exP3, exP1].eraseIdx 1)) =
        .ok ([exP3, exP1].eraseIdx 1) ∧
      ([exP3, exP1].eraseIdx 1).Sublist [exP3, exP1]) := by
  constructor
  · exact wt_order_preservation.1 exFile3 [exP3] exP2 true
      (writeList exFile3 ([exP3] ++ [exP2])) rfl rfl
  · obtain ⟨i, hpos, hget, hpro, hsub⟩ := wt_order_preservation.2 exFile2
      [exP3, exP1] (Json.str "{1}") "guid" exP1
      (writeList exFile2 ([exP3, exP1].eraseIdx 1)) rfl rfl
    have hi : i = 1 := by
      cases i with
      | zero => omega
      | succ k =>
          cases k with
          | zero => rfl
          | succ k2 => cases hget
    rw [hi] at hget hpro hsub
    exact ⟨1, Nat.one_pos, hget, hpro, hsub⟩

/-- Claim C5: every write performed by `add_profile` or by a successful
`remove_profile` preserves, value for value, every key of the document other
than the profile list: all top-level keys besides `profiles`, and all keys
of the `profiles` object besides `list`, are unchanged in the rewritten
document (`framePreserved`). -/
theorem wt_frame_preservation :
    (∀ file P b file2, add_profile file P = .ok (b, file2) →
      framePreserved file file2) ∧
    (∀ file value field p file2,
      remove_profile file value field = .ok (some p, file2) →
      framePreserved file file2) := by
  constructor
  · intro file P b file2 h
    cases hps : profiles file with
    | error e =>
        exfalso
        cases hcmd : pyIndex P "commandline" with
        | error e2 => simp [add_profile, hcmd] at h
        | ok cmd =>
            have hq : query file cmd "commandline" = .error e := by
              simp [query, hps]
            simp [add_profile, hcmd, hq] at h
    | ok ps =>
        obtain ⟨-, fmid, mid, hmid, hf2, -, hframe⟩ := add_profile_ok_elim hps h
        rw [hf2]
        exact framePreserved_trans hframe (writeList_framePreserved fmid _)
  · intro file value field p file2 h
    cases hps : profiles file with
    | error e => simp [remove_profile, hps] at h
    | ok ps =>
        rcases remove_profile_ok_elim hps h with ⟨hnone, -⟩ |
          ⟨i, p2, -, -, -, -, hf2⟩
        · cases hnone
        · rw [hf2]
          exact writeList_framePreserved file _

theorem wt_frame_preservation_witness :
    add_profile exFile2 exP2 =
      .ok (true, writeList (writeList exFile2 ([exP3, exP1].eraseIdx 1))
        (([exP3, exP1].eraseIdx 1) ++ [exP2])) ∧
    framePreserved exFile2 (writeList (writeList exFile2 ([exP3, exP1].eraseIdx 1))
      (([exP3, exP1].eraseIdx 1) ++ [exP2])) ∧
    remove_profile exFile2 (Json.str "{1}") "guid" =
      .ok (some exP1, writeList exFile2 ([exP3, exP1].eraseIdx 1)) ∧
    framePreserved exFile2 (writeList exFile2 ([exP3, exP1].eraseIdx 1)) :=
  ⟨rfl,
    wt_frame_preservation.1 exFile2 exP2 true
      (writeList (writeList exFile2 ([exP3, exP1].eraseIdx 1))
        (([exP3, exP1].eraseIdx 1) ++ [exP2])) rfl,
    rfl,
    wt_frame_preservation.2 exFile2 (Json.str "{1}") "guid" exP1
      (writeList exFile2 ([exP3, exP1].eraseIdx 1)) rfl⟩

/-- Claim C1 counterexample: in a document whose only profile is `exP1`
(commandline `/bin/a`, guid `{1}`), adding `exP2` with the same commandline
does NOT replace it.  The matched profile sits at list position 0, so the
guid-based removal inside `add_profile` hits the falsy-zero defect and
removes nothing; the persisted list is `[exP1, exP2]` — two profiles with
commandline `/bin/a`, and `exP1`'s guid is still present. -/
theorem wt_add_collision_counterexample :
    add_profile exFile1 exP2 = .ok (true, writeList exFile1 [exP1, exP2]) ∧
    profiles (writeList exFile1 [exP1, exP2]) = .ok [exP1, exP2] ∧
    ([exP1, exP2].filter
      (entryMatches "commandline" (Json.str "/bin/a"))).length = 2 ∧
    [exP1, exP2].filter (entryMatches "guid" (Json.str "{1}")) = [exP1] :=
  ⟨rfl, rfl, by decide, by decide⟩

/-- Claim C1 amended: replace-on-commandline-collision holds provided the
colliding profile P1 is not at list position 0 (otherwise the falsy-zero
removal defect leaves it in place) and P1's guid occurs in no other entry
(the document invariant; the guid search removes its first occurrence).
Then `add_profile P2` yields a persisted list equal to the old list with P1
deleted and P2 appended at the end, in which exactly one profile has
commandline `c` — namely P2 — and P1's guid is no longer present anywhere. -/
theorem wt_add_replaces_on_collision {file : WtFile} {ps : List Json}
    {pa pb : Json} {c g : String}
    (hps : profiles file = .ok ps)
    (hobj : ∀ q ∈ ps, isObjEntry q = true)
    (hcmdfilter : ps.filter (entryMatches "commandline" (Json.str c)) = [pa])
    (hguid : pyIndex pa "guid" = .ok (Json.str g))
    (hguidfilter : ps.filter (entryMatches "guid" (Json.str g)) = [pa])
    (hhead : ps.head? ≠ some pa)
    (hP2cmd : pyIndex pb "commandline" = .ok (Json.str c))
    (hP2guid : entryMatches "guid" (Json.str g) pb = false) :
    ∃ i, 0 < i ∧ ps.get? i = some pa ∧
      add_profile file pb =
        .ok (true,
          writeList (writeList file (ps.eraseIdx i)) (ps.eraseIdx i ++ [pb])) ∧
      profiles (writeList (writeList file (ps.eraseIdx i)) (ps.eraseIdx i ++ [pb])) =
        .ok (ps.eraseIdx i ++ [pb]) ∧
      (ps.eraseIdx i ++ [pb]).filter (entryMatches "commandline" (Json.str c)) =
        [pb] ∧
      (ps.eraseIdx i ++ [pb]).filter (entryMatches "guid" (Json.str g)) = [] := by
  have hP1cm : entryMatches "commandline" (Json.str c) pa = true := by
    have hmem : pa ∈ ps.filter (entryMatches "commandline" (Json.str c)) := by
      rw [hcmdfilter]
      exact List.mem_singleton.mpr rfl
    exact (List.mem_filter.mp hmem).2
  have hP1gm : entryMatches "guid" (Json.str g) pa = true := by
    have hmem : pa ∈ ps.filter (entryMatches "guid" (Json.str g)) := by
      rw [hguidfilter]
      exact List.mem_singleton.mpr rfl
    exact (List.mem_filter.mp hmem).2
  obtain ⟨i, hget, hfa, huniq, herase⟩ := filter_singleton_spec hguidfilter
  have hpos : 0 < i := by
    cases i with
    | zero =>
        exfalso
        apply hhead
        rw [← List.get?_zero]
        exact hget
    | succ k => exact Nat.succ_pos k
  obtain ⟨i2, hget2, hfa2, huniq2, herase2⟩ := filter_singleton_spec hcmdfilter
  have hii : i2 = i := huniq i2 pa hget2 hP1gm
  rw [hii] at herase2
  have hq : query file (Json.str c) "commandline" = .ok (some pa) := by
    have hs : queryScan ps (Json.str c) "commandline" = .ok (some pa) := by
      apply (queryScan_some_iff hobj).mpr
      refine ⟨i, hget, hP1cm, ?_⟩
      intro j q hj hq2
      cases hmq : entryMatches "commandline" (Json.str c) q with
      | false => rfl
      | true =>
          have hji : j = i := hii ▸ huniq2 j q hq2 hmq
          omega
    simp [query, hps, hs]
  have hne : pa ≠ Json.obj [] := entryMatches_str_ne_empty hP1cm
  have hscan : removeScan ps (Json.str g) "guid" 0 = .ok (some i) := by
    have hs := removeScan_of_unique hobj hget hP1gm huniq 0
    simpa using hs
  obtain ⟨k, hk⟩ : ∃ k, i = k + 1 := ⟨i - 1, by omega⟩
  subst hk
  have hgeti : ps[k + 1]? = some pa := by
    rw [← List.get?_eq_getElem?]
    exact hget
  have hrem : remove_profile file (Json.str g) "guid" =
      .ok (some pa, writeList file (ps.eraseIdx (k + 1))) := by
    simp [remove_profile, hps, hscan, hgeti]
  have haar : addAfterRemove file (some pa) =
      .ok (writeList file (ps.eraseIdx (k + 1))) := by
    simp [addAfterRemove, hne, hguid, hrem]
  have hmid : profiles (writeList file (ps.eraseIdx (k + 1))) =
      .ok (ps.eraseIdx (k + 1)) := profiles_writeList hps _
  have hadd : add_profile file pb =
      .ok (true,
        writeList (writeList file (ps.eraseIdx (k + 1)))
          (ps.eraseIdx (k + 1) ++ [pb])) := by
    simp [add_profile, hP2cmd, hq, haar, hmid]
  have hP2cm : entryMatches "commandline" (Json.str c) pb = true := by
    obtain ⟨kvs, hpk, hpl⟩ := pyIndex_ok_elim hP2cmd
    rw [hpk]
    exact entryMatches_of_lookup hpl
  have hfinal1 : (ps.eraseIdx (k + 1) ++ [pb]).filter
      (entryMatches "commandline" (Json.str c)) = [pb] := by
    rw [List.filter_append, herase2]
    simp [List.filter, hP2cm]
  have hfinal2 : (ps.eraseIdx (k + 1) ++ [pb]).filter
      (entryMatches "guid" (Json.str g)) = [] := by
    rw [List.filter_append, herase]
    simp [List.filter, hP2guid]
  exact ⟨k + 1, Nat.succ_pos k, hget, hadd,
    profiles_writeList hmid _, hfinal1, hfinal2⟩

theorem wt_add_replaces_on_collision_witness :
    ∃ i, 0 < i ∧ [exP3, exP1].get? i = some exP1 ∧
      add_profile exFile2 exP2 =
        .ok (true,
          writeList (writeList exFile2 ([exP3, exP1].eraseIdx i))
            ([exP3, exP1].eraseIdx i ++ [exP2])) ∧
      profiles (writeList (writeList exFile2 ([exP3, exP1].eraseIdx i))
          ([exP3, exP1].eraseIdx i ++ [exP2])) =
        .ok ([exP3, exP1].eraseIdx i ++ [exP2]) ∧
      ([exP3, exP1].eraseIdx i ++ [exP2]).filter
        (entryMatches "commandline" (Json.str "/bin/a")) = [exP2] ∧
      ([exP3, exP1].eraseIdx i ++ [exP2]).filter
        (entryMatches "guid" (Json.str "{1}")) = [] :=
  @wt_add_replaces_on_collision exFile2 [exP3, exP1] exP1 exP2 "/bin/a" "{1}"
    rfl (by decide) (by decide) rfl (by decide) (by decide) rfl (by decide)
